import Mathlib

/-!
Verification of the culitrap repository against its specification.

The repository's scripts delegate the tiled-inference ("slicing") pipeline to
an external library; the specification reconstructs that pipeline
(TileGenerator, CoordinateMapper, DetectionMerger, SlicedInferenceOrchestrator).
Those components are modelled here from the spec's words.  The camera helper
functions `calculate_roi` and `detect_camera_resolution` are embedded directly
from `capture_test.py` / `capture_interval.py` (the two copies are identical),
with Python floats modelled as exact rationals and the camera probe modelled as
an explicit `Except` input.
-/

/-! ## Camera helpers (from `capture_test.py` and `capture_interval.py`) -/

namespace Capture

/-- Embedding of `calculate_roi(zoom_factor)`: returns `None` for
`zoom_factor <= 1.0`, otherwise the centered ROI `(x, y, width, height)`
as fractions of the sensor. Floats are modelled as rationals. -/
def calculate_roi (zoom_factor : ℚ) : Option (ℚ × ℚ × ℚ × ℚ) :=
  if zoom_factor ≤ 1 then
    none
  else
    let width := 1 / zoom_factor
    let height := 1 / zoom_factor
    let x := (1 - width) / 2
    let y := (1 - height) / 2
    some (x, y, width, height)

/-- Character-list version of Python's `needle in hay` helper: prefix test. -/
def isPre : List Char → List Char → Bool
  | [], _ => true
  | _ :: _, [] => false
  | a :: as, b :: bs => a = b && isPre as bs

/-- Character-list version of Python's `needle in hay`: substring test. -/
def hasSub (needle : List Char) : List Char → Bool
  | [] => isPre needle []
  | c :: t => isPre needle (c :: t) || hasSub needle t

/-- Python's `needle in model` on strings, as used by
`detect_camera_resolution`. -/
def strIn (needle hay : String) : Bool :=
  hasSub needle.toList hay.toList

/-- Python's `str.lower()`, modelled character-wise. -/
def lowerString (s : String) : String :=
  ⟨s.data.map Char.toLower⟩

/-- The sensor-model dispatch of `detect_camera_resolution`, applied to the
already-retrieved `Model` property (lower-cased inside, like the source). -/
def sensorResolution (rawModel : String) : (ℕ × ℕ) × String :=
  let model := lowerString rawModel
  if strIn "ov64a40" model || strIn "64mp" model then
    ((9248, 6944), "64MP (OV64A40)")
  else if strIn "imx519" model || strIn "16mp" model then
    ((4656, 3496), "16MP (IMX519)")
  else if strIn "imx708" model then
    ((4608, 2592), "12MP (IMX708 - Pi V3)")
  else if strIn "imx477" model then
    ((4056, 3040), "12MP (IMX477 - Pi HQ)")
  else if strIn "imx219" model then
    ((3280, 2464), "8MP (IMX219 - Pi V2)")
  else
    ((4608, 2592), "Desconhecido (" ++ model ++ ")")

/-- Embedding of `detect_camera_resolution(camera_id)`.  The effectful camera
probe (`Picamera2(camera_id).camera_properties['Model']`) is modelled as an
explicit input: `.ok model` is a successful probe returning the model string,
`.error msg` is any raised exception.  The `try/except` of the source becomes
the match on that input. -/
def detect_camera_resolution (probe : Except String String) : (ℕ × ℕ) × String :=
  match probe with
  | .ok model => sensorResolution model
  | .error _ => ((1920, 1080), "Fallback (1080p)")

/-- The fixed table of resolutions `detect_camera_resolution` can return. -/
def knownResolutions : List (ℕ × ℕ) :=
  [(9248, 6944), (4656, 3496), (4608, 2592), (4056, 3040), (3280, 2464), (1920, 1080)]

end Capture

/-- C9: `calculate_roi` returns `none` for every `zoom_factor ≤ 1.0`; for every
`zoom_factor > 1.0` it returns `(x, y, width, height)` with
`width = height = 1/zoom_factor` and `x = y = (1 - width)/2`, hence the ROI is
centered in the unit square (`x + width/2 = 1/2`, `y + height/2 = 1/2`) and lies
entirely within it (`0 ≤ x, y`, `x + width ≤ 1`, `y + height ≤ 1`). -/
theorem calculate_roi_spec (z : ℚ) :
    (z ≤ 1 → Capture.calculate_roi z = none) ∧
    (1 < z → ∃ x y w h, Capture.calculate_roi z = some (x, y, w, h) ∧
      w = 1 / z ∧ h = 1 / z ∧ x = (1 - w) / 2 ∧ y = (1 - h) / 2 ∧
      x + w / 2 = 1 / 2 ∧ y + h / 2 = 1 / 2 ∧
      0 ≤ x ∧ 0 ≤ y ∧ x + w ≤ 1 ∧ y + h ≤ 1) := by
  constructor
  · intro hle
    simp [Capture.calculate_roi, hle]
  · intro hgt
    have hz : (0:ℚ) < z := lt_trans one_pos hgt
    have hw0 : (0:ℚ) < 1 / z := by positivity
    have hw1 : 1 / z ≤ 1 := by
      rw [div_le_one hz]; exact le_of_lt hgt
    refine ⟨(1 - 1/z) / 2, (1 - 1/z) / 2, 1/z, 1/z, ?_, rfl, rfl, rfl, rfl, ?_, ?_, ?_, ?_, ?_, ?_⟩
    · simp [Capture.calculate_roi, not_le.mpr hgt]
    · ring
    · ring
    · linarith
    · linarith
    · linarith
    · linarith

/-- Witness for C9: concrete instantiation at `zoom_factor = 2` (zoomed) and
`zoom_factor = 1` (no zoom). -/
theorem calculate_roi_spec_witness :
    (Capture.calculate_roi 1 = none) ∧
    (∃ x y w h, Capture.calculate_roi 2 = some (x, y, w, h) ∧
      w = 1 / 2 ∧ h = 1 / 2 ∧ x = (1 - w) / 2 ∧ y = (1 - h) / 2 ∧
      x + w / 2 = 1 / 2 ∧ y + h / 2 = 1 / 2 ∧
      0 ≤ x ∧ 0 ≤ y ∧ x + w ≤ 1 ∧ y + h ≤ 1) :=
  ⟨(calculate_roi_spec 1).1 (by norm_num), (calculate_roi_spec 2).2 (by norm_num)⟩

/-- C10: `detect_camera_resolution` is total and never propagates a probe
error: it always returns a positive resolution drawn from the fixed sensor
table; a raised probe exception yields the fallback `((1920,1080), "Fallback
(1080p)")`; an unrecognized sensor model yields the default `(4608, 2592)`. -/
theorem detect_camera_resolution_spec (probe : Except String String) :
    (0 < (Capture.detect_camera_resolution probe).1.1 ∧
     0 < (Capture.detect_camera_resolution probe).1.2) ∧
    (Capture.detect_camera_resolution probe).1 ∈ Capture.knownResolutions ∧
    (∀ msg, probe = .error msg →
      Capture.detect_camera_resolution probe = ((1920, 1080), "Fallback (1080p)")) ∧
    (∀ model, probe = .ok model →
      (∀ needle ∈ ["ov64a40", "64mp", "imx519", "16mp", "imx708", "imx477", "imx219"],
        Capture.strIn needle (Capture.lowerString model) = false) →
      (Capture.detect_camera_resolution probe).1 = (4608, 2592)) := by
  refine ⟨?_, ?_, ?_, ?_⟩
  · cases probe with
    | error e => simp [Capture.detect_camera_resolution]
    | ok model =>
      simp only [Capture.detect_camera_resolution, Capture.sensorResolution]
      split <;> try split <;> try split <;> try split <;> try split
      all_goals norm_num
  · cases probe with
    | error e => simp [Capture.detect_camera_resolution, Capture.knownResolutions]
    | ok model =>
      simp only [Capture.detect_camera_resolution, Capture.sensorResolution,
        Capture.knownResolutions]
      split <;> try split <;> try split <;> try split <;> try split
      all_goals simp
  · intro msg h
    subst h
    rfl
  · intro model h hnone
    subst h
    have h1 := hnone "ov64a40" (by simp)
    have h2 := hnone "64mp" (by simp)
    have h3 := hnone "imx519" (by simp)
    have h4 := hnone "16mp" (by simp)
    have h5 := hnone "imx708" (by simp)
    have h6 := hnone "imx477" (by simp)
    have h7 := hnone "imx219" (by simp)
    simp [Capture.detect_camera_resolution, Capture.sensorResolution,
      h1, h2, h3, h4, h5, h6, h7]

/-- Witness for C10: a failing probe yields the 1080p fallback, and an
unrecognized model string yields the default 12MP resolution. -/
theorem detect_camera_resolution_spec_witness :
    Capture.detect_camera_resolution (.error "probe failed") =
      ((1920, 1080), "Fallback (1080p)") ∧
    (Capture.detect_camera_resolution (.ok "mystery")).1 = (4608, 2592) :=
  ⟨(detect_camera_resolution_spec (.error "probe failed")).2.2.1 "probe failed" rfl,
   (detect_camera_resolution_spec (.ok "mystery")).2.2.2 "mystery" rfl
     (by intro needle h; fin_cases h <;> decide)⟩

/-! ## TileGenerator

Modelled from the spec: the repository delegates tiling to the external SAHI
library (`get_sliced_prediction` in `SAHI.py`); the slicing algorithm itself is
not part of the sources, so it is modelled from spec section 4.1. -/

/-- A tile rectangle in full-image pixel coordinates (spec section 3). -/
structure TileSpec where
  x : ℕ
  y : ℕ
  width : ℕ
  height : ℕ
deriving DecidableEq

namespace TileGenerator

/-- Configuration failure of `generate` (spec section 7). -/
inductive TileError where
  | invalidConfig
deriving DecidableEq

/-- Modelled from the spec: "Stride along an axis = dimension *
(1 - overlap_ratio), rounded down to an integer ≥ 1". -/
def strideOf (tileDim : ℕ) (overlap_ratio : ℚ) : ℕ :=
  max 1 (⌊(tileDim : ℚ) * (1 - overlap_ratio)⌋.toNat)

/-- Modelled from the spec: tile placement along one axis.  Tiles of size
`tile` are placed at `pos = 0, stride, 2*stride, …` while they fit; the first
candidate that would overrun is shifted left so its far edge equals `dim`
exactly, and placement stops once a tile reaches the far edge.  `fuel` is a
structural-recursion bound; every caller passes `fuel ≥ dim - pos`, which makes
the fuel-exhausted arm unreachable (it agrees with the overrun arm). -/
def axisGo (dim tile stride : ℕ) : ℕ → ℕ → List (ℕ × ℕ)
  | 0, _ => [(dim - tile, tile)]
  | fuel + 1, pos =>
    if pos + tile < dim then (pos, tile) :: axisGo dim tile stride fuel (pos + stride)
    else if pos + tile = dim then [(pos, tile)]
    else [(dim - tile, tile)]

/-- Modelled from the spec: all `(offset, size)` tiles along one axis.  "If
`tile_width ≥ W` (or `tile_height ≥ H`), a single tile covering the whole axis
is produced." -/
def axisTiles (dim tile : ℕ) (overlap_ratio : ℚ) : List (ℕ × ℕ) :=
  if dim ≤ tile then [(0, dim)]
  else axisGo dim tile (strideOf tile overlap_ratio) dim 0

/-- Modelled from the spec: `generate(W, H, tile_width, tile_height,
overlap_ratio)`, row-major, failing with `InvalidConfig` on bad parameters. -/
def generate (W H tile_width tile_height : ℕ) (overlap_ratio : ℚ) :
    Except TileError (List TileSpec) :=
  if 0 < tile_width ∧ 0 < tile_height ∧ 0 ≤ overlap_ratio ∧ overlap_ratio < 1 then
    .ok (((axisTiles H tile_height overlap_ratio).map (fun r =>
      (axisTiles W tile_width overlap_ratio).map (fun c =>
        TileSpec.mk c.1 r.1 c.2 r.2))).flatten)
  else
    .error .invalidConfig

theorem one_le_strideOf (tileDim : ℕ) (r : ℚ) : 1 ≤ strideOf tileDim r :=
  le_max_left 1 _

theorem strideOf_le (tileDim : ℕ) (r : ℚ) (h0 : 0 ≤ r) :
    strideOf tileDim r ≤ max 1 tileDim := by
  unfold strideOf
  have hfl : ⌊(tileDim : ℚ) * (1 - r)⌋ ≤ (tileDim : ℤ) := by
    have h1 : (tileDim : ℚ) * (1 - r) ≤ (tileDim : ℚ) := by
      have : (0:ℚ) ≤ tileDim := Nat.cast_nonneg tileDim
      nlinarith
    calc ⌊(tileDim : ℚ) * (1 - r)⌋ ≤ ⌊(tileDim : ℚ)⌋ := Int.floor_le_floor h1
    _ = (tileDim : ℤ) := Int.floor_natCast tileDim
  have : ⌊(tileDim : ℚ) * (1 - r)⌋.toNat ≤ tileDim := Int.toNat_le.mpr hfl
  omega

theorem axisGo_bounds (dim tile stride : ℕ) (htile : 0 < tile) (hts : tile ≤ dim) :
    ∀ fuel pos, ∀ pw ∈ axisGo dim tile stride fuel pos, pw.1 + pw.2 ≤ dim ∧ 0 < pw.2 := by
  intro fuel
  induction fuel with
  | zero =>
    intro pos pw hpw
    simp only [axisGo, List.mem_singleton] at hpw
    subst hpw
    simp only
    omega
  | succ n ih =>
    intro pos pw hpw
    simp only [axisGo] at hpw
    split at hpw
    · rcases List.mem_cons.mp hpw with h | h
      · subst h; simp only; omega
      · exact ih _ pw h
    · split at hpw
      · simp only [List.mem_singleton] at hpw
        subst hpw; simp only; omega
      · simp only [List.mem_singleton] at hpw
        subst hpw; simp only; omega

theorem axisGo_cover (dim tile stride : ℕ) (hstride : 1 ≤ stride) (hst : stride ≤ tile)
    (hts : tile ≤ dim) :
    ∀ fuel pos p, dim ≤ pos + fuel → pos ≤ p → p < dim →
      ∃ pw ∈ axisGo dim tile stride fuel pos, pw.1 ≤ p ∧ p < pw.1 + pw.2 := by
  intro fuel
  induction fuel with
  | zero =>
    intro pos p hfuel hpos hp
    omega
  | succ n ih =>
    intro pos p hfuel hpos hp
    simp only [axisGo]
    by_cases h1 : pos + tile < dim
    · rw [if_pos h1]
      by_cases h2 : p < pos + tile
      · exact ⟨(pos, tile), List.mem_cons_self _ _, hpos, h2⟩
      · obtain ⟨pw, hmem, hle, hlt⟩ :=
          ih (pos + stride) p (by omega) (by omega) hp
        exact ⟨pw, List.mem_cons_of_mem _ hmem, hle, hlt⟩
    · rw [if_neg h1]
      by_cases h2 : pos + tile = dim
      · rw [if_pos h2]
        exact ⟨(pos, tile), List.mem_singleton_self _, hpos, by omega⟩
      · rw [if_neg h2]
        exact ⟨(dim - tile, tile), List.mem_singleton_self _, by omega, by omega⟩

theorem axisTiles_bounds (dim tile : ℕ) (r : ℚ) (hdim : 0 < dim) (htile : 0 < tile) :
    ∀ pw ∈ axisTiles dim tile r, pw.1 + pw.2 ≤ dim ∧ 0 < pw.2 := by
  intro pw hpw
  unfold axisTiles at hpw
  split at hpw
  · simp only [List.mem_singleton] at hpw
    subst hpw
    exact ⟨by omega, hdim⟩
  · exact axisGo_bounds dim tile _ htile (by omega) dim 0 pw hpw

theorem axisTiles_cover (dim tile : ℕ) (r : ℚ) (hdim : 0 < dim) (htile : 0 < tile)
    (h0 : 0 ≤ r) :
    ∀ p, p < dim → ∃ pw ∈ axisTiles dim tile r, pw.1 ≤ p ∧ p < pw.1 + pw.2 := by
  intro p hp
  unfold axisTiles
  split
  · exact ⟨(0, dim), List.mem_singleton_self _, by omega, by omega⟩
  · rename_i hnd
    have hst : strideOf tile r ≤ tile := by
      have := strideOf_le tile r h0
      omega
    exact axisGo_cover dim tile (strideOf tile r) (one_le_strideOf tile r) hst
      (by omega) dim 0 p (by omega) (by omega) hp

end TileGenerator

/-- C1: for every image `W > 0`, `H > 0`, `tile_width > 0`, `tile_height > 0`
and `overlap_ratio ∈ [0,1)`, `TileGenerator.generate` succeeds and the union of
the returned TileSpecs exactly equals the image rectangle `[0,W) × [0,H)`, with
every TileSpec in bounds (`x + width ≤ W`, `y + height ≤ H`). -/
theorem tile_coverage (W H tw th : ℕ) (ratio : ℚ)
    (hW : 0 < W) (hH : 0 < H) (htw : 0 < tw) (hth : 0 < th)
    (h0 : 0 ≤ ratio) (h1 : ratio < 1) :
    ∃ tiles, TileGenerator.generate W H tw th ratio = .ok tiles ∧
      (∀ t ∈ tiles, t.x + t.width ≤ W ∧ t.y + t.height ≤ H ∧ 0 < t.width ∧ 0 < t.height) ∧
      (∀ px py : ℕ,
        (∃ t ∈ tiles, t.x ≤ px ∧ px < t.x + t.width ∧ t.y ≤ py ∧ py < t.y + t.height) ↔
        (px < W ∧ py < H)) := by
  refine ⟨((TileGenerator.axisTiles H th ratio).map (fun r =>
      (TileGenerator.axisTiles W tw ratio).map (fun c =>
        TileSpec.mk c.1 r.1 c.2 r.2))).flatten, ?_, ?_, ?_⟩
  · unfold TileGenerator.generate
    rw [if_pos ⟨htw, hth, h0, h1⟩]
  · intro t ht
    simp only [List.mem_flatten, List.mem_map] at ht
    obtain ⟨row, ⟨r, hr, hrow⟩, htrow⟩ := ht
    subst hrow
    simp only [List.mem_map] at htrow
    obtain ⟨c, hc, hct⟩ := htrow
    subst hct
    have hbc := TileGenerator.axisTiles_bounds W tw ratio hW htw c hc
    have hbr := TileGenerator.axisTiles_bounds H th ratio hH hth r hr
    exact ⟨hbc.1, hbr.1, hbc.2, hbr.2⟩
  · intro px py
    constructor
    · rintro ⟨t, ht, hx1, hx2, hy1, hy2⟩
      simp only [List.mem_flatten, List.mem_map] at ht
      obtain ⟨row, ⟨r, hr, hrow⟩, htrow⟩ := ht
      subst hrow
      simp only [List.mem_map] at htrow
      obtain ⟨c, hc, hct⟩ := htrow
      subst hct
      have hbc := TileGenerator.axisTiles_bounds W tw ratio hW htw c hc
      have hbr := TileGenerator.axisTiles_bounds H th ratio hH hth r hr
      constructor <;> simp only at hx2 hy2 <;> omega
    · rintro ⟨hpx, hpy⟩
      obtain ⟨c, hc, hcx1, hcx2⟩ := TileGenerator.axisTiles_cover W tw ratio hW htw h0 px hpx
      obtain ⟨r, hr, hry1, hry2⟩ := TileGenerator.axisTiles_cover H th ratio hH hth h0 py hpy
      refine ⟨TileSpec.mk c.1 r.1 c.2 r.2, ?_, hcx1, hcx2, hry1, hry2⟩
      simp only [List.mem_flatten, List.mem_map]
      exact ⟨_, ⟨r, hr, rfl⟩, List.mem_map.mpr ⟨c, hc, rfl⟩⟩

/-- Witness for C1: a 3×2 image with 2×2 tiles and overlap 1/2. -/
theorem tile_coverage_witness :
    ∃ tiles, TileGenerator.generate 3 2 2 2 (1/2) = .ok tiles ∧
      (∀ t ∈ tiles, t.x + t.width ≤ 3 ∧ t.y + t.height ≤ 2 ∧ 0 < t.width ∧ 0 < t.height) ∧
      (∀ px py : ℕ,
        (∃ t ∈ tiles, t.x ≤ px ∧ px < t.x + t.width ∧ t.y ≤ py ∧ py < t.y + t.height) ↔
        (px < 3 ∧ py < 2)) :=
  tile_coverage 3 2 2 2 (1/2) (by norm_num) (by norm_num) (by norm_num) (by norm_num)
    (by norm_num) (by norm_num)

theorem strideOf_640 : TileGenerator.strideOf 640 (1/5) = 512 := by
  unfold TileGenerator.strideOf
  have h : ⌊((640 : ℕ) : ℚ) * (1 - 1/5)⌋ = 512 := by
    rw [Int.floor_eq_iff]
    norm_num
  rw [h]
  rfl

theorem axisTiles_1280 :
    TileGenerator.axisTiles 1280 640 (1/5) = [(0, 640), (512, 640), (640, 640)] := by
  unfold TileGenerator.axisTiles
  rw [if_neg (by norm_num), strideOf_640]
  decide

theorem generate_1280 :
    TileGenerator.generate 1280 1280 640 640 (1/5) = .ok
      [⟨0, 0, 640, 640⟩, ⟨512, 0, 640, 640⟩, ⟨640, 0, 640, 640⟩,
       ⟨0, 512, 640, 640⟩, ⟨512, 512, 640, 640⟩, ⟨640, 512, 640, 640⟩,
       ⟨0, 640, 640, 640⟩, ⟨512, 640, 640, 640⟩, ⟨640, 640, 640, 640⟩] := by
  unfold TileGenerator.generate
  rw [if_pos ⟨by norm_num, by norm_num, by norm_num, by norm_num⟩, axisTiles_1280]
  rfl

/-- Counterexample for C8: on a 1280×1280 image with 640×640 tiles and overlap
ratio 0.2, `TileGenerator.generate` produces 9 tiles (3 per axis, at offsets
0, 512 and 640), not the 4 tiles the claim states. -/
theorem scenario_1280_not_four_tiles :
    (TileGenerator.generate 1280 1280 640 640 (1/5)).map List.length ≠ .ok 4 := by
  rw [generate_1280]
  simp [Except.map]

/-- C8 (amended): for a 1280×1280 image with `tile_width = tile_height = 640`
and `overlap_ratio = 0.2`, the stride is 512 and `TileGenerator.generate`
produces exactly 9 TileSpecs (3 per axis, at offsets 0, 512 and 640), each
exactly 640×640, with the last tile on each axis anchored so its far edge
equals 1280, together fully covering the image with no tile out of bounds. -/
theorem scenario_1280_nine_tiles :
    TileGenerator.strideOf 640 (1/5) = 512 ∧
    TileGenerator.generate 1280 1280 640 640 (1/5) = .ok
      [⟨0, 0, 640, 640⟩, ⟨512, 0, 640, 640⟩, ⟨640, 0, 640, 640⟩,
       ⟨0, 512, 640, 640⟩, ⟨512, 512, 640, 640⟩, ⟨640, 512, 640, 640⟩,
       ⟨0, 640, 640, 640⟩, ⟨512, 640, 640, 640⟩, ⟨640, 640, 640, 640⟩] :=
  ⟨strideOf_640, generate_1280⟩

/-! ## Detection data model and DetectionMerger

Modelled from the spec: the repository delegates detection merging to the
external SAHI library; the merge algorithm is modelled from spec section 4.4
(class-aware greedy NMS-style clustering).  Pixel coordinates are integers,
confidences and the IoU are exact rationals. -/

/-- An axis-aligned box `(minx, miny, maxx, maxy)` (spec section 3). -/
structure Box where
  minx : ℤ
  miny : ℤ
  maxx : ℤ
  maxy : ℤ
deriving DecidableEq

/-- A detection in tile-local coordinates (spec section 3). -/
structure LocalDetection where
  class_id : ℕ
  confidence : ℚ
  bbox_local : Box
deriving DecidableEq

/-- A detection remapped to full-image coordinates (spec section 3). -/
structure GlobalDetection where
  class_id : ℕ
  confidence : ℚ
  bbox_global : Box
  source_tile_id : ℕ
deriving DecidableEq

/-- A final, deduplicated detection (spec section 3). -/
structure MergedDetection where
  class_id : ℕ
  confidence : ℚ
  bbox_global : Box
deriving DecidableEq

namespace DetectionMerger

/-- Signed area of a box. -/
def boxArea (b : Box) : ℤ :=
  (b.maxx - b.minx) * (b.maxy - b.miny)

/-- Area of the intersection rectangle of two boxes. -/
def interArea (a b : Box) : ℤ :=
  max 0 (min a.maxx b.maxx - max a.minx b.minx) *
  max 0 (min a.maxy b.maxy - max a.miny b.miny)

/-- Modelled from the spec: IoU = `intersection_area / (areaA + areaB -
intersection_area)`; if either box has zero area, IoU is 0. -/
def iou (a b : Box) : ℚ :=
  if boxArea a = 0 ∨ boxArea b = 0 then 0
  else (interArea a b : ℚ) / ((boxArea a : ℚ) + (boxArea b : ℚ) - (interArea a b : ℚ))

/-- The MergedDetection a cluster seed yields (spec section 4.4 step 4). -/
def toMerged (d : GlobalDetection) : MergedDetection :=
  ⟨d.class_id, d.confidence, d.bbox_global⟩

/-- Re-inject a MergedDetection into the merge input type (used to state
idempotence; `source_tile_id` is irrelevant to merging). -/
def toGlobal (m : MergedDetection) : GlobalDetection :=
  ⟨m.class_id, m.confidence, m.bbox_global, 0⟩

/-- Modelled from the spec: sort order inside a class — confidence descending,
ties broken by larger box area first (the remaining input-order tiebreak comes
from sort stability). -/
def detBefore (a b : GlobalDetection) : Prop :=
  b.confidence < a.confidence ∨
  (b.confidence = a.confidence ∧ boxArea b.bbox_global ≤ boxArea a.bbox_global)

instance : DecidableRel detBefore := fun a b => by
  unfold detBefore; infer_instance

instance : IsTotal GlobalDetection detBefore where
  total a b := by
    unfold detBefore
    rcases lt_trichotomy a.confidence b.confidence with h | h | h
    · exact Or.inr (Or.inl h)
    · rcases le_total (boxArea a.bbox_global) (boxArea b.bbox_global) with ha | ha
      · exact Or.inr (Or.inr ⟨h, ha⟩)
      · exact Or.inl (Or.inr ⟨h.symm, ha⟩)
    · exact Or.inl (Or.inl h)

instance : IsTrans GlobalDetection detBefore where
  trans a b c hab hbc := by
    unfold detBefore at *
    rcases hab with h1 | ⟨h1, h1'⟩ <;> rcases hbc with h2 | ⟨h2, h2'⟩
    · exact Or.inl (lt_trans h2 h1)
    · exact Or.inl (h2 ▸ h1)
    · exact Or.inl (lt_of_lt_of_le h2 (le_of_eq h1))
    · exact Or.inr ⟨h2.trans h1, h2'.trans h1'⟩

/-- Stable sort of a class pool by `detBefore` (spec section 4.4 step 2). -/
def sortDets (l : List GlobalDetection) : List GlobalDetection :=
  List.insertionSort detBefore l

/-- Modelled from the spec: greedy NMS clustering (spec section 4.4 step 3):
repeatedly take the highest-remaining detection as a seed and remove every
remaining detection whose IoU with the seed is ≥ the threshold; each cluster
yields the seed's MergedDetection.  `fuel` makes the recursion structural;
every caller passes `fuel ≥ length`, making the fuel-exhausted arm
unreachable. -/
def nmsGo (t : ℚ) : ℕ → List GlobalDetection → List MergedDetection
  | _, [] => []
  | 0, _ :: _ => []
  | fuel + 1, d :: rest =>
    toMerged d ::
      nmsGo t fuel (rest.filter (fun e => decide (iou d.bbox_global e.bbox_global < t)))

/-- Greedy NMS clustering of a sorted class pool. -/
def nmsGreedy (t : ℚ) (l : List GlobalDetection) : List MergedDetection :=
  nmsGo t l.length l

/-- First-occurrence deduplication of the class-id list (spec section 4.4
step 1: partition the pool by `class_id`).  `fuel` as in `nmsGo`. -/
def classesGo : ℕ → List ℕ → List ℕ
  | _, [] => []
  | 0, _ :: _ => []
  | fuel + 1, c :: rest => c :: classesGo fuel (rest.filter (fun x => decide (x ≠ c)))

/-- The distinct class ids of a pool, in first-occurrence order. -/
def classesOf (l : List ℕ) : List ℕ :=
  classesGo l.length l

/-- The MergedDetections a single class contributes. -/
def mergeClass (pool : List GlobalDetection) (t : ℚ) (c : ℕ) : List MergedDetection :=
  nmsGreedy t (sortDets (pool.filter (fun d => decide (d.class_id = c))))

/-- Modelled from the spec: `merge(pool, iou_threshold)` — partition by class,
sort each class by confidence (ties: area, then stable input order), greedy-NMS
cluster, one MergedDetection per cluster (spec section 4.4). -/
def merge (pool : List GlobalDetection) (t : ℚ) : List MergedDetection :=
  ((classesOf (pool.map GlobalDetection.class_id)).map (mergeClass pool t)).flatten

theorem nmsGo_nil (t : ℚ) (fuel : ℕ) : nmsGo t fuel [] = [] := by
  cases fuel <;> rfl

theorem nmsGo_fuel (t : ℚ) :
    ∀ f₁ f₂ (l : List GlobalDetection), l.length ≤ f₁ → l.length ≤ f₂ →
      nmsGo t f₁ l = nmsGo t f₂ l := by
  intro f₁
  induction f₁ with
  | zero =>
    intro f₂ l h1 _
    have : l = [] := List.length_eq_zero.mp (Nat.le_zero.mp h1)
    subst this
    simp [nmsGo_nil]
  | succ n ih =>
    intro f₂ l h1 h2
    cases l with
    | nil => simp [nmsGo_nil]
    | cons d rest =>
      cases f₂ with
      | zero => simp at h2
      | succ m =>
        simp only [nmsGo]
        have hf := List.length_filter_le
          (fun e => decide (iou d.bbox_global e.bbox_global < t)) rest
        simp only [List.length_cons] at h1 h2
        rw [ih m _ (by omega) (by omega)]

theorem nmsGreedy_nil (t : ℚ) : nmsGreedy t [] = [] := rfl

theorem nmsGreedy_cons (t : ℚ) (d : GlobalDetection) (rest : List GlobalDetection) :
    nmsGreedy t (d :: rest) =
      toMerged d ::
        nmsGreedy t (rest.filter (fun e => decide (iou d.bbox_global e.bbox_global < t))) := by
  unfold nmsGreedy
  simp only [List.length_cons, nmsGo]
  exact congrArg _ (nmsGo_fuel t rest.length _ _ (List.length_filter_le _ _) le_rfl)

theorem classesGo_nil (fuel : ℕ) : classesGo fuel [] = [] := by
  cases fuel <;> rfl

theorem classesGo_fuel :
    ∀ f₁ f₂ (l : List ℕ), l.length ≤ f₁ → l.length ≤ f₂ →
      classesGo f₁ l = classesGo f₂ l := by
  intro f₁
  induction f₁ with
  | zero =>
    intro f₂ l h1 _
    have : l = [] := List.length_eq_zero.mp (Nat.le_zero.mp h1)
    subst this
    simp [classesGo_nil]
  | succ n ih =>
    intro f₂ l h1 h2
    cases l with
    | nil => simp [classesGo_nil]
    | cons c rest =>
      cases f₂ with
      | zero => simp at h2
      | succ m =>
        simp only [classesGo]
        have hf := List.length_filter_le (fun x => decide (x ≠ c)) rest
        simp only [List.length_cons] at h1 h2
        rw [ih m _ (by omega) (by omega)]

theorem classesOf_nil : classesOf [] = [] := rfl

theorem classesOf_cons (c : ℕ) (rest : List ℕ) :
    classesOf (c :: rest) = c :: classesOf (rest.filter (fun x => decide (x ≠ c))) := by
  unfold classesOf
  simp only [List.length_cons, classesGo]
  exact congrArg _ (classesGo_fuel rest.length _ _ (List.length_filter_le _ _) le_rfl)

end DetectionMerger

namespace DetectionMerger

theorem interArea_comm (a b : Box) : interArea a b = interArea b a := by
  unfold interArea
  rw [min_comm a.maxx, max_comm a.minx, min_comm a.maxy, max_comm a.miny]

theorem iou_comm (a b : Box) : iou a b = iou b a := by
  unfold iou
  rw [interArea_comm]
  by_cases h : boxArea a = 0 ∨ boxArea b = 0
  · rw [if_pos h, if_pos (Or.symm h)]
  · rw [if_neg h, if_neg (fun hx => h (Or.symm hx))]
    rw [add_comm]

theorem merge_pair_same_class (d1 d2 : GlobalDetection) (t : ℚ)
    (hc : d2.class_id = d1.class_id) :
    merge [d1, d2] t = nmsGreedy t (sortDets [d1, d2]) := by
  have hcls : classesOf [d1.class_id, d2.class_id] = [d1.class_id] := by
    rw [classesOf_cons]
    simp [List.filter_cons, hc, classesOf_nil]
  have hfilter : [d1, d2].filter (fun d => decide (d.class_id = d1.class_id)) = [d1, d2] := by
    simp [List.filter_cons, hc]
  unfold merge
  simp only [List.map_cons, List.map_nil]
  rw [hcls]
  simp only [List.map_cons, List.map_nil, List.flatten_cons, List.flatten_nil,
    List.append_nil]
  unfold mergeClass
  rw [hfilter]

theorem sortDets_pair (d1 d2 : GlobalDetection) :
    sortDets [d1, d2] = if detBefore d1 d2 then [d1, d2] else [d2, d1] := by
  simp only [sortDets, List.insertionSort, List.orderedInsert]

end DetectionMerger

/-- C3: two GlobalDetections of the same class whose IoU is at least the
threshold collapse into exactly one MergedDetection, which carries the
higher-confidence detection's confidence and box (the cluster seed, not an
average). -/
theorem duplicate_collapse (d1 d2 : GlobalDetection) (t : ℚ)
    (hc : d2.class_id = d1.class_id)
    (hi : t ≤ DetectionMerger.iou d1.bbox_global d2.bbox_global) :
    (DetectionMerger.merge [d1, d2] t = [DetectionMerger.toMerged d1] ∧
      d2.confidence ≤ d1.confidence) ∨
    (DetectionMerger.merge [d1, d2] t = [DetectionMerger.toMerged d2] ∧
      d1.confidence ≤ d2.confidence) := by
  rw [DetectionMerger.merge_pair_same_class d1 d2 t hc, DetectionMerger.sortDets_pair]
  by_cases hr : DetectionMerger.detBefore d1 d2
  · left
    constructor
    · rw [if_pos hr, DetectionMerger.nmsGreedy_cons]
      have hlt : ¬(DetectionMerger.iou d1.bbox_global d2.bbox_global < t) := not_lt.mpr hi
      simp [List.filter_cons, hlt, DetectionMerger.nmsGreedy_nil]
    · rcases hr with h | ⟨h, _⟩
      · exact le_of_lt h
      · exact le_of_eq h
  · right
    constructor
    · rw [if_neg hr, DetectionMerger.nmsGreedy_cons]
      have hi' : t ≤ DetectionMerger.iou d2.bbox_global d1.bbox_global := by
        rwa [DetectionMerger.iou_comm]
      have hlt : ¬(DetectionMerger.iou d2.bbox_global d1.bbox_global < t) := not_lt.mpr hi'
      simp [List.filter_cons, hlt, DetectionMerger.nmsGreedy_nil]
    · have := fun h => hr (Or.inl h)
      exact not_lt.mp this

/-- Witness for C3: two detections of class 0 on the same 10×10 box (IoU = 1)
with confidences 9/10 and 4/5 collapse into one MergedDetection. -/
theorem duplicate_collapse_witness :
    (DetectionMerger.merge
        [⟨0, 9/10, ⟨0, 0, 10, 10⟩, 0⟩, ⟨0, 4/5, ⟨0, 0, 10, 10⟩, 1⟩] (1/2) =
       [DetectionMerger.toMerged ⟨0, 9/10, ⟨0, 0, 10, 10⟩, 0⟩] ∧
      (4/5 : ℚ) ≤ 9/10) ∨
    (DetectionMerger.merge
        [⟨0, 9/10, ⟨0, 0, 10, 10⟩, 0⟩, ⟨0, 4/5, ⟨0, 0, 10, 10⟩, 1⟩] (1/2) =
       [DetectionMerger.toMerged ⟨0, 4/5, ⟨0, 0, 10, 10⟩, 1⟩] ∧
      (9/10 : ℚ) ≤ 4/5) :=
  duplicate_collapse ⟨0, 9/10, ⟨0, 0, 10, 10⟩, 0⟩ ⟨0, 4/5, ⟨0, 0, 10, 10⟩, 1⟩ (1/2) rfl
    (by norm_num [DetectionMerger.iou, DetectionMerger.boxArea, DetectionMerger.interArea])

/-- C4: two GlobalDetections of different classes are never merged, whatever
their boxes: both appear as distinct MergedDetections in the output. -/
theorem no_spurious_merge (d1 d2 : GlobalDetection) (t : ℚ)
    (hc : d1.class_id ≠ d2.class_id) :
    DetectionMerger.merge [d1, d2] t =
      [DetectionMerger.toMerged d1, DetectionMerger.toMerged d2] ∧
    DetectionMerger.toMerged d1 ≠ DetectionMerger.toMerged d2 := by
  constructor
  · have hcls : DetectionMerger.classesOf [d1.class_id, d2.class_id] =
        [d1.class_id, d2.class_id] := by
      rw [DetectionMerger.classesOf_cons]
      simp only [List.filter_cons, List.filter_nil]
      rw [if_pos (by simp [Ne.symm hc])]
      rw [DetectionMerger.classesOf_cons]
      simp [DetectionMerger.classesOf_nil]
    have hf1 : [d1, d2].filter (fun d => decide (d.class_id = d1.class_id)) = [d1] := by
      simp [List.filter_cons, Ne.symm hc]
    have hf2 : [d1, d2].filter (fun d => decide (d.class_id = d2.class_id)) = [d2] := by
      simp [List.filter_cons, hc]
    unfold DetectionMerger.merge
    simp only [List.map_cons, List.map_nil]
    rw [hcls]
    simp only [List.map_cons, List.map_nil, List.flatten_cons, List.flatten_nil,
      List.append_nil]
    unfold DetectionMerger.mergeClass
    rw [hf1, hf2]
    simp only [DetectionMerger.sortDets, List.insertionSort, List.orderedInsert]
    rw [DetectionMerger.nmsGreedy_cons, DetectionMerger.nmsGreedy_cons]
    simp [DetectionMerger.nmsGreedy_nil]
  · intro h
    exact hc (congrArg MergedDetection.class_id h)

/-- Witness for C4: detections of classes 0 and 1 with identical boxes both
survive the merge. -/
theorem no_spurious_merge_witness :
    DetectionMerger.merge
        [⟨0, 9/10, ⟨0, 0, 10, 10⟩, 0⟩, ⟨1, 9/10, ⟨0, 0, 10, 10⟩, 1⟩] (1/2) =
      [DetectionMerger.toMerged ⟨0, 9/10, ⟨0, 0, 10, 10⟩, 0⟩,
       DetectionMerger.toMerged ⟨1, 9/10, ⟨0, 0, 10, 10⟩, 1⟩] ∧
    DetectionMerger.toMerged ⟨0, 9/10, ⟨0, 0, 10, 10⟩, 0⟩ ≠
      DetectionMerger.toMerged ⟨1, 9/10, ⟨0, 0, 10, 10⟩, 1⟩ :=
  no_spurious_merge ⟨0, 9/10, ⟨0, 0, 10, 10⟩, 0⟩ ⟨1, 9/10, ⟨0, 0, 10, 10⟩, 1⟩ (1/2)
    (by decide)

namespace DetectionMerger

theorem nms_mem (t : ℚ) :
    ∀ (l : List GlobalDetection) (m : MergedDetection),
      m ∈ nmsGreedy t l → ∃ d ∈ l, m = toMerged d := by
  suffices H : ∀ n l m, l.length ≤ n → m ∈ nmsGreedy t l → ∃ d ∈ l, m = toMerged d by
    exact fun l m => H l.length l m le_rfl
  intro n
  induction n with
  | zero =>
    intro l m hl hm
    have : l = [] := List.length_eq_zero.mp (Nat.le_zero.mp hl)
    subst this
    rw [nmsGreedy_nil] at hm
    simp at hm
  | succ n ih =>
    intro l m hl hm
    cases l with
    | nil =>
      rw [nmsGreedy_nil] at hm
      simp at hm
    | cons d rest =>
      rw [nmsGreedy_cons] at hm
      rcases List.mem_cons.mp hm with h | h
      · exact ⟨d, List.mem_cons_self _ _, h⟩
      · simp only [List.length_cons] at hl
        obtain ⟨e, he, hme⟩ := ih _ m
          (le_trans (List.length_filter_le _ _) (by omega)) h
        exact ⟨e, List.mem_cons_of_mem _ (List.mem_filter.mp he).1, hme⟩

theorem nms_ne_nil (t : ℚ) (l : List GlobalDetection) (h : l ≠ []) :
    nmsGreedy t l ≠ [] := by
  cases l with
  | nil => exact absurd rfl h
  | cons d rest =>
    rw [nmsGreedy_cons]
    exact List.cons_ne_nil _ _

theorem nms_rerun (t : ℚ) :
    ∀ l : List GlobalDetection,
      nmsGreedy t ((nmsGreedy t l).map toGlobal) = nmsGreedy t l := by
  suffices H : ∀ n l, l.length ≤ n →
      nmsGreedy t ((nmsGreedy t l).map toGlobal) = nmsGreedy t l by
    exact fun l => H l.length l le_rfl
  intro n
  induction n with
  | zero =>
    intro l hl
    have : l = [] := List.length_eq_zero.mp (Nat.le_zero.mp hl)
    subst this
    rw [nmsGreedy_nil]
    simp [nmsGreedy_nil]
  | succ n ih =>
    intro l hl
    cases l with
    | nil =>
      rw [nmsGreedy_nil]
      simp [nmsGreedy_nil]
    | cons d rest =>
      simp only [List.length_cons] at hl
      rw [nmsGreedy_cons, List.map_cons, nmsGreedy_cons]
      have hfl : ((nmsGreedy t (rest.filter
          (fun e => decide (iou d.bbox_global e.bbox_global < t)))).map toGlobal).filter
            (fun e => decide (iou (toGlobal (toMerged d)).bbox_global e.bbox_global < t)) =
          (nmsGreedy t (rest.filter
          (fun e => decide (iou d.bbox_global e.bbox_global < t)))).map toGlobal := by
        rw [List.filter_eq_self]
        intro a ha
        obtain ⟨m, hm, rfl⟩ := List.mem_map.mp ha
        obtain ⟨e, he, rfl⟩ := nms_mem t _ m hm
        have := (List.mem_filter.mp he).2
        simpa using this
      rw [hfl]
      rw [ih _ (le_trans (List.length_filter_le _ _) (by omega))]
      rfl

theorem nms_sorted (t : ℚ) :
    ∀ l : List GlobalDetection, l.Sorted detBefore →
      ((nmsGreedy t l).map toGlobal).Sorted detBefore := by
  suffices H : ∀ n l, l.length ≤ n → l.Sorted detBefore →
      ((nmsGreedy t l).map toGlobal).Sorted detBefore by
    exact fun l => H l.length l le_rfl
  intro n
  induction n with
  | zero =>
    intro l hl _
    have : l = [] := List.length_eq_zero.mp (Nat.le_zero.mp hl)
    subst this
    rw [nmsGreedy_nil]
    simp
  | succ n ih =>
    intro l hl hs
    cases l with
    | nil =>
      rw [nmsGreedy_nil]
      simp
    | cons d rest =>
      simp only [List.length_cons] at hl
      rw [nmsGreedy_cons, List.map_cons]
      rw [List.sorted_cons]
      constructor
      · intro b hb
        obtain ⟨m, hm, rfl⟩ := List.mem_map.mp hb
        obtain ⟨e, he, rfl⟩ := nms_mem t _ m hm
        have hrest : e ∈ rest := (List.mem_filter.mp he).1
        exact List.rel_of_sorted_cons hs e hrest
      · exact ih _ (le_trans (List.length_filter_le _ _) (by omega))
          ((List.sorted_cons.mp hs).2.filter _)

theorem mem_classesOf :
    ∀ (l : List ℕ) (x : ℕ), x ∈ classesOf l ↔ x ∈ l := by
  suffices H : ∀ n l x, l.length ≤ n → (x ∈ classesOf l ↔ x ∈ l) by
    exact fun l x => H l.length l x le_rfl
  intro n
  induction n with
  | zero =>
    intro l x hl
    have : l = [] := List.length_eq_zero.mp (Nat.le_zero.mp hl)
    subst this
    rw [classesOf_nil]
  | succ n ih =>
    intro l x hl
    cases l with
    | nil => rw [classesOf_nil]
    | cons c rest =>
      simp only [List.length_cons] at hl
      rw [classesOf_cons]
      constructor
      · intro hx
        rcases List.mem_cons.mp hx with h | h
        · exact h ▸ List.mem_cons_self _ _
        · have := (ih _ x (le_trans (List.length_filter_le _ _) (by omega))).mp h
          exact List.mem_cons_of_mem _ (List.mem_filter.mp this).1
      · intro hx
        rcases List.mem_cons.mp hx with h | h
        · exact h ▸ List.mem_cons_self _ _
        · by_cases hxc : x = c
          · exact hxc ▸ List.mem_cons_self _ _
          · refine List.mem_cons_of_mem _ ?_
            refine (ih _ x (le_trans (List.length_filter_le _ _) (by omega))).mpr ?_
            exact List.mem_filter.mpr ⟨h, by simpa using hxc⟩

theorem classesOf_nodup : ∀ l : List ℕ, (classesOf l).Nodup := by
  suffices H : ∀ n l, l.length ≤ n → (classesOf l).Nodup by
    exact fun l => H l.length l le_rfl
  intro n
  induction n with
  | zero =>
    intro l hl
    have : l = [] := List.length_eq_zero.mp (Nat.le_zero.mp hl)
    subst this
    rw [classesOf_nil]
    exact List.nodup_nil
  | succ n ih =>
    intro l hl
    cases l with
    | nil =>
      rw [classesOf_nil]
      exact List.nodup_nil
    | cons c rest =>
      simp only [List.length_cons] at hl
      rw [classesOf_cons]
      rw [List.nodup_cons]
      constructor
      · intro hc
        have := (mem_classesOf _ c).mp hc
        have := (List.mem_filter.mp this).2
        simp at this
      · exact ih _ (le_trans (List.length_filter_le _ _) (by omega))

theorem classesOf_flatten (cs : List ℕ) (g : ℕ → List ℕ) (hnodup : cs.Nodup)
    (hne : ∀ c ∈ cs, g c ≠ []) (hcls : ∀ c ∈ cs, ∀ x ∈ g c, x = c) :
    classesOf ((cs.map g).flatten) = cs := by
  induction cs with
  | nil => simp [classesOf_nil]
  | cons c cs ih =>
    simp only [List.map_cons, List.flatten_cons]
    cases hgc : g c with
    | nil => exact absurd hgc (hne c (List.mem_cons_self _ _))
    | cons x gt =>
      have hx : x = c := hcls c (List.mem_cons_self _ _) x (hgc ▸ List.mem_cons_self _ _)
      subst hx
      rw [List.cons_append, classesOf_cons, List.filter_append]
      have hgt : gt.filter (fun y => decide (y ≠ x)) = [] := by
        rw [List.filter_eq_nil_iff]
        intro y hy
        have : y = x := hcls x (List.mem_cons_self _ _) y (hgc ▸ List.mem_cons_of_mem _ hy)
        simp [this]
      have hrest : ((cs.map g).flatten).filter (fun y => decide (y ≠ x)) =
          (cs.map g).flatten := by
        rw [List.filter_eq_self]
        intro y hy
        obtain ⟨l', hl', hyl⟩ := List.mem_flatten.mp hy
        obtain ⟨c', hc', rfl⟩ := List.mem_map.mp hl'
        have hyc : y = c' := hcls c' (List.mem_cons_of_mem _ hc') y hyl
        have hcx : c' ≠ x := by
          intro h
          exact (List.nodup_cons.mp hnodup).1 (h ▸ hc')
        simp [hyc, hcx]
      rw [hgt, hrest, List.nil_append]
      rw [ih (List.nodup_cons.mp hnodup).2
        (fun c' hc' => hne c' (List.mem_cons_of_mem _ hc'))
        (fun c' hc' => hcls c' (List.mem_cons_of_mem _ hc'))]

theorem filter_class_flatten :
    ∀ (cs : List ℕ) (G : ℕ → List MergedDetection), cs.Nodup →
      (∀ c' ∈ cs, ∀ m ∈ G c', m.class_id = c') → ∀ c ∈ cs,
      (((cs.map G).flatten.map toGlobal).filter (fun d => decide (d.class_id = c))) =
        (G c).map toGlobal := by
  intro cs
  induction cs with
  | nil =>
    intro G _ _ c hc
    simp at hc
  | cons c0 cs ih =>
    intro G hnodup hcls c hc
    simp only [List.map_cons, List.flatten_cons, List.map_append, List.filter_append]
    rcases List.mem_cons.mp hc with rfl | hc'
    · have h1 : ((G c).map toGlobal).filter (fun d => decide (d.class_id = c)) =
          (G c).map toGlobal := by
        rw [List.filter_eq_self]
        intro a ha
        obtain ⟨m, hm, rfl⟩ := List.mem_map.mp ha
        have : m.class_id = c := hcls c (List.mem_cons_self _ _) m hm
        simpa using this
      have h2 : (((cs.map G).flatten).map toGlobal).filter
          (fun d => decide (d.class_id = c)) = [] := by
        rw [List.filter_eq_nil_iff]
        intro a ha
        obtain ⟨m, hm, rfl⟩ := List.mem_map.mp ha
        obtain ⟨l', hl', hml⟩ := List.mem_flatten.mp hm
        obtain ⟨c', hcmem, rfl⟩ := List.mem_map.mp hl'
        have hmc : m.class_id = c' := hcls c' (List.mem_cons_of_mem _ hcmem) m hml
        have : c' ≠ c := by
          intro h
          exact (List.nodup_cons.mp hnodup).1 (h ▸ hcmem)
        simp [toGlobal, hmc, this]
      rw [h1, h2, List.append_nil]
    · have h1 : ((G c0).map toGlobal).filter (fun d => decide (d.class_id = c)) = [] := by
        rw [List.filter_eq_nil_iff]
        intro a ha
        obtain ⟨m, hm, rfl⟩ := List.mem_map.mp ha
        have hmc : m.class_id = c0 := hcls c0 (List.mem_cons_self _ _) m hm
        have : c0 ≠ c := by
          intro h
          exact (List.nodup_cons.mp hnodup).1 (h ▸ hc')
        simp [toGlobal, hmc, this]
      rw [h1, List.nil_append]
      exact ih G (List.nodup_cons.mp hnodup).2
        (fun c' hcm => hcls c' (List.mem_cons_of_mem _ hcm)) c hc'

theorem mergeClass_class (pool : List GlobalDetection) (t : ℚ) (c : ℕ) :
    ∀ m ∈ mergeClass pool t c, m.class_id = c := by
  intro m hm
  obtain ⟨d, hd, rfl⟩ := nms_mem t _ m hm
  have : d ∈ pool.filter (fun d => decide (d.class_id = c)) :=
    (List.perm_insertionSort detBefore _).mem_iff.mp hd
  have := (List.mem_filter.mp this).2
  simpa [toMerged] using this

theorem mergeClass_ne_nil (pool : List GlobalDetection) (t : ℚ) (c : ℕ)
    (h : ∃ d ∈ pool, d.class_id = c) : mergeClass pool t c ≠ [] := by
  obtain ⟨d, hd, hdc⟩ := h
  have hmem : d ∈ pool.filter (fun d => decide (d.class_id = c)) :=
    List.mem_filter.mpr ⟨hd, by simpa using hdc⟩
  apply nms_ne_nil
  intro hnil
  have hmem2 : d ∈ sortDets (pool.filter (fun d => decide (d.class_id = c))) :=
    (List.perm_insertionSort detBefore
      (pool.filter (fun d => decide (d.class_id = c)))).symm.mem_iff.mp hmem
  rw [hnil] at hmem2
  simp at hmem2

end DetectionMerger

/-- C2: `DetectionMerger.merge` is idempotent — re-running the merge on its own
output (re-injected as GlobalDetections) changes nothing, for every detection
pool and every IoU threshold. -/
theorem merge_idempotent (pool : List GlobalDetection) (t : ℚ) :
    DetectionMerger.merge ((DetectionMerger.merge pool t).map DetectionMerger.toGlobal) t =
      DetectionMerger.merge pool t := by
  open DetectionMerger in
  have hnodup : (classesOf (pool.map GlobalDetection.class_id)).Nodup :=
    classesOf_nodup _
  have hGne : ∀ c ∈ classesOf (pool.map GlobalDetection.class_id),
      mergeClass pool t c ≠ [] := by
    intro c hc
    have hcp : c ∈ pool.map GlobalDetection.class_id := (mem_classesOf _ _).mp hc
    obtain ⟨d, hd, hdc⟩ := List.mem_map.mp hcp
    exact mergeClass_ne_nil pool t c ⟨d, hd, hdc⟩
  have hmapclass : ((merge pool t).map toGlobal).map GlobalDetection.class_id =
      (merge pool t).map MergedDetection.class_id := by
    rw [List.map_map]
    exact List.map_congr_left (fun m _ => rfl)
  have hclasseseq : classesOf ((merge pool t).map MergedDetection.class_id) =
      classesOf (pool.map GlobalDetection.class_id) := by
    have hflat : (merge pool t).map MergedDetection.class_id =
        ((classesOf (pool.map GlobalDetection.class_id)).map
          (fun c => (mergeClass pool t c).map MergedDetection.class_id)).flatten := by
      rw [show merge pool t = ((classesOf (pool.map GlobalDetection.class_id)).map
        (mergeClass pool t)).flatten from rfl]
      rw [List.map_flatten, List.map_map]
      rfl
    rw [hflat]
    refine classesOf_flatten _ _ hnodup ?_ ?_
    · intro c hc
      simpa using hGne c hc
    · intro c hc x hx
      obtain ⟨m, hm, rfl⟩ := List.mem_map.mp hx
      exact mergeClass_class pool t c m hm
  have hpoint : ∀ c ∈ classesOf (pool.map GlobalDetection.class_id),
      mergeClass ((merge pool t).map toGlobal) t c = mergeClass pool t c := by
    intro c hc
    have hfilter : ((merge pool t).map toGlobal).filter
        (fun d => decide (d.class_id = c)) = (mergeClass pool t c).map toGlobal := by
      rw [show merge pool t = ((classesOf (pool.map GlobalDetection.class_id)).map
        (mergeClass pool t)).flatten from rfl]
      exact filter_class_flatten _ (mergeClass pool t) hnodup
        (fun c' _ => mergeClass_class pool t c') c hc
    show nmsGreedy t (sortDets (((merge pool t).map toGlobal).filter
      (fun d => decide (d.class_id = c)))) = mergeClass pool t c
    rw [hfilter]
    have hsorted : ((mergeClass pool t c).map toGlobal).Sorted detBefore :=
      nms_sorted t _ (List.sorted_insertionSort detBefore _)
    have hs : sortDets ((mergeClass pool t c).map toGlobal) =
        (mergeClass pool t c).map toGlobal := hsorted.insertionSort_eq
    rw [hs]
    exact nms_rerun t (sortDets (pool.filter (fun d => decide (d.class_id = c))))
  calc merge ((merge pool t).map toGlobal) t
      = ((classesOf (((merge pool t).map toGlobal).map GlobalDetection.class_id)).map
          (mergeClass ((merge pool t).map toGlobal) t)).flatten := rfl
    _ = ((classesOf (pool.map GlobalDetection.class_id)).map
          (mergeClass ((merge pool t).map toGlobal) t)).flatten := by
          rw [hmapclass, hclasseseq]
    _ = ((classesOf (pool.map GlobalDetection.class_id)).map
          (mergeClass pool t)).flatten := congrArg List.flatten (List.map_congr_left hpoint)
    _ = merge pool t := rfl

/-! ## CoordinateMapper

Modelled from the spec (section 4.3): translate a tile-local box by the tile
offset, clamp to `[0,W] × [0,H]`, and drop the detection (`DegenerateBox`) if
clamping collapses its width or height to ≤ 0. -/

namespace CoordinateMapper

/-- Clamp a coordinate into `[lo, hi]`. -/
def clamp (lo hi v : ℤ) : ℤ :=
  max lo (min v hi)

/-- Modelled from the spec: `to_global(LocalDetection, TileSpec) →
GlobalDetection` — translation by `(tile.x, tile.y)`, clamping to the image,
`none` when the clamped box is degenerate (the detection is dropped and counted
by the orchestrator).  `tid` is the source tile's index, recorded as
`source_tile_id`. -/
def to_global (W H : ℕ) (tile : TileSpec) (tid : ℕ) (ld : LocalDetection) :
    Option GlobalDetection :=
  let b : Box := ⟨clamp 0 W (ld.bbox_local.minx + tile.x),
                  clamp 0 H (ld.bbox_local.miny + tile.y),
                  clamp 0 W (ld.bbox_local.maxx + tile.x),
                  clamp 0 H (ld.bbox_local.maxy + tile.y)⟩
  if b.maxx - b.minx ≤ 0 ∨ b.maxy - b.miny ≤ 0 then
    none
  else
    some ⟨ld.class_id, ld.confidence, b, tid⟩

end CoordinateMapper

/-- C5: `to_global` translates a tile-local box by the tile's offset — when the
translated box lies within the image (so clamping is the identity) the emitted
GlobalDetection's box is exactly the local box plus `(tile.x, tile.y)`; and for
every LocalDetection whose local box minimum is the tile origin `(0,0)`, any
emitted GlobalDetection has `bbox_global.min = (tile.x, tile.y)`. -/
theorem to_global_translation (W H : ℕ) (tile : TileSpec) (tid : ℕ) (ld : LocalDetection) :
    (0 ≤ ld.bbox_local.minx + (tile.x : ℤ) → ld.bbox_local.maxx + (tile.x : ℤ) ≤ (W : ℤ) →
     0 ≤ ld.bbox_local.miny + (tile.y : ℤ) → ld.bbox_local.maxy + (tile.y : ℤ) ≤ (H : ℤ) →
     ld.bbox_local.minx < ld.bbox_local.maxx → ld.bbox_local.miny < ld.bbox_local.maxy →
      CoordinateMapper.to_global W H tile tid ld = some ⟨ld.class_id, ld.confidence,
        ⟨ld.bbox_local.minx + tile.x, ld.bbox_local.miny + tile.y,
         ld.bbox_local.maxx + tile.x, ld.bbox_local.maxy + tile.y⟩, tid⟩) ∧
    (ld.bbox_local.minx = 0 → ld.bbox_local.miny = 0 →
     (tile.x : ℤ) ≤ (W : ℤ) → (tile.y : ℤ) ≤ (H : ℤ) →
      ∀ g, CoordinateMapper.to_global W H tile tid ld = some g →
        g.bbox_global.minx = tile.x ∧ g.bbox_global.miny = tile.y) := by
  constructor
  · intro h1 h2 h3 h4 h5 h6
    have e1 : CoordinateMapper.clamp 0 W (ld.bbox_local.minx + tile.x) =
        ld.bbox_local.minx + tile.x := by
      unfold CoordinateMapper.clamp; omega
    have e2 : CoordinateMapper.clamp 0 H (ld.bbox_local.miny + tile.y) =
        ld.bbox_local.miny + tile.y := by
      unfold CoordinateMapper.clamp; omega
    have e3 : CoordinateMapper.clamp 0 W (ld.bbox_local.maxx + tile.x) =
        ld.bbox_local.maxx + tile.x := by
      unfold CoordinateMapper.clamp; omega
    have e4 : CoordinateMapper.clamp 0 H (ld.bbox_local.maxy + tile.y) =
        ld.bbox_local.maxy + tile.y := by
      unfold CoordinateMapper.clamp; omega
    unfold CoordinateMapper.to_global
    simp only [e1, e2, e3, e4]
    rw [if_neg (by push_neg; omega)]
  · intro hx hy hW hH g hg
    unfold CoordinateMapper.to_global at hg
    simp only at hg
    split at hg
    · exact absurd hg (by simp)
    · have := (Option.some.injEq _ _).mp hg
      subst this
      constructor
      · simp only [hx]
        unfold CoordinateMapper.clamp
        omega
      · simp only [hy]
        unfold CoordinateMapper.clamp
        omega

/-- Witness for C5: a 3×2 local box at the origin of tile (5,7) inside a 100×80
image maps to the global box (5,7)–(8,9). -/
theorem to_global_translation_witness :
    CoordinateMapper.to_global 100 80 ⟨5, 7, 10, 10⟩ 3 ⟨2, 9/10, ⟨0, 0, 3, 2⟩⟩ =
      some ⟨2, 9/10, ⟨0 + 5, 0 + 7, 3 + 5, 2 + 7⟩, 3⟩ :=
  (to_global_translation 100 80 ⟨5, 7, 10, 10⟩ 3 ⟨2, 9/10, ⟨0, 0, 3, 2⟩⟩).1
    (by norm_num) (by norm_num) (by norm_num) (by norm_num) (by norm_num) (by norm_num)

/-! ## SlicedInferenceOrchestrator

Modelled from the spec (section 4.5): generate tiles, run the Detector per
tile, remap results, merge, and aggregate statistics; per-tile failures are
absorbed unless every tile fails. -/

namespace SlicedInferenceOrchestrator

/-- Recognized configuration options (spec section 6). -/
structure Config where
  tile_width : ℕ
  tile_height : ℕ
  overlap_ratio : ℚ
  confidence_floor : ℚ
  iou_threshold : ℚ

/-- The run's statistics record (spec sections 4.5 and 7). -/
structure Stats where
  tile_count : ℕ
  raw_detection_count : ℕ
  merged_detection_count : ℕ
  dropped_degenerate_count : ℕ
  failed_tile_count : ℕ
deriving DecidableEq

/-- The run's successful result. -/
structure RunResult where
  merged_detections : List MergedDetection
  stats : Stats
deriving DecidableEq

/-- Fatal run errors (spec section 7). -/
inductive RunError where
  | invalidConfig
  | allTilesFailed
deriving DecidableEq

/-- The external Detector capability: given a tile (standing for its extracted
sub-image) and the confidence floor, it returns LocalDetections or fails. -/
def Detector : Type :=
  TileSpec → ℚ → Except Unit (List LocalDetection)

/-- Whether the Detector fails on a tile. -/
def tileFailed (detector : Detector) (floor : ℚ) (ts : TileSpec) : Bool :=
  match detector ts floor with
  | .error _ => true
  | .ok _ => false

/-- All (tile index, tile, local detection) triples from successful tiles, in
tile order; failed tiles contribute nothing (spec section 4.5). -/
def rawPairs (detector : Detector) (floor : ℚ) (tiles : List TileSpec) :
    List ((ℕ × TileSpec) × LocalDetection) :=
  (tiles.enum.map (fun it =>
    match detector it.2 floor with
    | .ok ds => ds.map (fun d => (it, d))
    | .error _ => [])).flatten

/-- The accumulated GlobalDetection pool entering the merge: every raw
detection that `to_global` emits (degenerate ones are dropped). -/
def globalPool (W H : ℕ) (detector : Detector) (floor : ℚ) (tiles : List TileSpec) :
    List GlobalDetection :=
  (rawPairs detector floor tiles).filterMap
    (fun p => CoordinateMapper.to_global W H p.1.2 p.1.1 p.2)

/-- Modelled from the spec: `run(image, detector, config)` — TileGenerator →
per-tile Detector → CoordinateMapper → DetectionMerger, plus stats.  A failing
tile is recorded and skipped; if every tile fails the run fails with
`AllTilesFailed`; bad tiling parameters fail with `InvalidConfig`. -/
def run (W H : ℕ) (detector : Detector) (cfg : Config) : Except RunError RunResult :=
  match TileGenerator.generate W H cfg.tile_width cfg.tile_height cfg.overlap_ratio with
  | .error _ => .error .invalidConfig
  | .ok tiles =>
    let failedCount := (tiles.filter (tileFailed detector cfg.confidence_floor)).length
    if 0 < tiles.length ∧ failedCount = tiles.length then
      .error .allTilesFailed
    else
      let pairs := rawPairs detector cfg.confidence_floor tiles
      let merged := DetectionMerger.merge
        (globalPool W H detector cfg.confidence_floor tiles) cfg.iou_threshold
      .ok ⟨merged,
        ⟨tiles.length, pairs.length, merged.length,
         pairs.countP (fun p => (CoordinateMapper.to_global W H p.1.2 p.1.1 p.2).isNone),
         failedCount⟩⟩

/-- The result record a successful run returns, given the generated tiles. -/
def expectedResult (W H : ℕ) (detector : Detector) (cfg : Config)
    (tiles : List TileSpec) : RunResult :=
  ⟨DetectionMerger.merge (globalPool W H detector cfg.confidence_floor tiles)
      cfg.iou_threshold,
   ⟨tiles.length,
    (rawPairs detector cfg.confidence_floor tiles).length,
    (DetectionMerger.merge (globalPool W H detector cfg.confidence_floor tiles)
      cfg.iou_threshold).length,
    (rawPairs detector cfg.confidence_floor tiles).countP
      (fun p => (CoordinateMapper.to_global W H p.1.2 p.1.1 p.2).isNone),
    (tiles.filter (tileFailed detector cfg.confidence_floor)).length⟩⟩

theorem run_ok_iff (W H : ℕ) (detector : Detector) (cfg : Config) (tiles : List TileSpec)
    (hgen : TileGenerator.generate W H cfg.tile_width cfg.tile_height cfg.overlap_ratio =
      .ok tiles) :
    (¬(0 < tiles.length ∧
        (tiles.filter (tileFailed detector cfg.confidence_floor)).length = tiles.length) →
      run W H detector cfg = .ok (expectedResult W H detector cfg tiles)) ∧
    ((0 < tiles.length ∧
        (tiles.filter (tileFailed detector cfg.confidence_floor)).length = tiles.length) →
      run W H detector cfg = .error .allTilesFailed) := by
  unfold run
  rw [hgen]
  constructor
  · intro h
    simp only [if_neg h]
    rfl
  · intro h
    simp only [if_pos h]
end SlicedInferenceOrchestrator

/-- C7: if the Detector fails on some but not all tiles, `run` does not raise —
it returns the MergedDetections obtained from the successful tiles' pool and
reports the number of failed tiles in `stats.failed_tile_count`; only when
every tile fails does it fail with `AllTilesFailed`. -/
theorem partial_failure (W H : ℕ) (detector : SlicedInferenceOrchestrator.Detector)
    (cfg : SlicedInferenceOrchestrator.Config) (tiles : List TileSpec)
    (hgen : TileGenerator.generate W H cfg.tile_width cfg.tile_height cfg.overlap_ratio =
      .ok tiles) :
    ((∃ ts ∈ tiles, SlicedInferenceOrchestrator.tileFailed detector cfg.confidence_floor ts
        = false) →
      ∃ res, SlicedInferenceOrchestrator.run W H detector cfg = .ok res ∧
        res.stats.failed_tile_count =
          (tiles.filter (SlicedInferenceOrchestrator.tileFailed detector
            cfg.confidence_floor)).length ∧
        res.merged_detections = DetectionMerger.merge
          (SlicedInferenceOrchestrator.globalPool W H detector cfg.confidence_floor tiles)
          cfg.iou_threshold ∧
        res.stats.tile_count = tiles.length) ∧
    (tiles ≠ [] →
      (∀ ts ∈ tiles, SlicedInferenceOrchestrator.tileFailed detector cfg.confidence_floor ts
        = true) →
      SlicedInferenceOrchestrator.run W H detector cfg = .error .allTilesFailed) := by
  constructor
  · rintro ⟨ts, hts, hok⟩
    refine ⟨SlicedInferenceOrchestrator.expectedResult W H detector cfg tiles,
      (SlicedInferenceOrchestrator.run_ok_iff W H detector cfg tiles hgen).1 ?_,
      rfl, rfl, rfl⟩
    rintro ⟨_, heq⟩
    have hsub : tiles.filter
        (SlicedInferenceOrchestrator.tileFailed detector cfg.confidence_floor) = tiles :=
      (List.filter_sublist tiles).eq_of_length heq
    have : SlicedInferenceOrchestrator.tileFailed detector cfg.confidence_floor ts = true :=
      (List.mem_filter.mp (hsub ▸ hts)).2
    rw [this] at hok
    exact Bool.noConfusion hok
  · intro hne hall
    apply (SlicedInferenceOrchestrator.run_ok_iff W H detector cfg tiles hgen).2
    refine ⟨List.length_pos.mpr hne, ?_⟩
    rw [List.filter_eq_self.mpr hall]

/-- A Detector for the C7 witness scenario: fails exactly on the second tile of
a 2×2 four-tile grid, and reports one unit-box detection on every other tile. -/
def witDetector : SlicedInferenceOrchestrator.Detector :=
  fun ts _ =>
    if ts = ⟨1, 0, 1, 1⟩ then .error ()
    else .ok [⟨0, 9/10, ⟨0, 0, 1, 1⟩⟩]

/-- Configuration for the C7 witness scenario: 1×1 tiles, no overlap. -/
def witConfig : SlicedInferenceOrchestrator.Config :=
  ⟨1, 1, 0, 1/4, 1/2⟩

theorem generate_2x2 :
    TileGenerator.generate 2 2 1 1 0 =
      .ok [⟨0, 0, 1, 1⟩, ⟨1, 0, 1, 1⟩, ⟨0, 1, 1, 1⟩, ⟨1, 1, 1, 1⟩] := by
  have hstride : TileGenerator.strideOf 1 0 = 1 := by
    unfold TileGenerator.strideOf
    have h : ⌊((1 : ℕ) : ℚ) * (1 - 0)⌋ = 1 := by
      rw [Int.floor_eq_iff]
      norm_num
    rw [h]
    rfl
  have haxis : TileGenerator.axisTiles 2 1 0 = [(0, 1), (1, 1)] := by
    unfold TileGenerator.axisTiles
    rw [if_neg (by norm_num), hstride]
    decide
  unfold TileGenerator.generate
  rw [if_pos ⟨by norm_num, by norm_num, by norm_num, by norm_num⟩, haxis]
  rfl

/-- Witness for C7: 4 tiles with tile #2 failing — the run succeeds, reports
`failed_tile_count = 1` over 4 tiles, and returns the merge of the other
tiles' pool. -/
theorem partial_failure_witness :
    ∃ res, SlicedInferenceOrchestrator.run 2 2 witDetector witConfig = .ok res ∧
      res.stats.failed_tile_count = 1 ∧ res.stats.tile_count = 4 ∧
      res.merged_detections = DetectionMerger.merge
        (SlicedInferenceOrchestrator.globalPool 2 2 witDetector (1/4)
          [⟨0, 0, 1, 1⟩, ⟨1, 0, 1, 1⟩, ⟨0, 1, 1, 1⟩, ⟨1, 1, 1, 1⟩]) (1/2) := by
  obtain ⟨res, hrun, hfail, hmerged, htc⟩ :=
    (partial_failure 2 2 witDetector witConfig _ generate_2x2).1
      ⟨⟨0, 0, 1, 1⟩, by decide, rfl⟩
  exact ⟨res, hrun, hfail.trans (by decide), htc.trans rfl, hmerged⟩

/-- C6: every GlobalDetection the CoordinateMapper emits has its box clamped
inside `[0,W] × [0,H]` and non-degenerate; a detection whose clamped width or
height collapses to ≤ 0 is dropped (`none`), non-fatally; a successful run
counts exactly those drops in `stats.dropped_degenerate_count`, and no
degenerate box reaches the merge pool. -/
theorem clamp_invariant (W H : ℕ) :
    (∀ (tile : TileSpec) (tid : ℕ) (ld : LocalDetection) (g : GlobalDetection),
      CoordinateMapper.to_global W H tile tid ld = some g →
        0 ≤ g.bbox_global.minx ∧ g.bbox_global.minx < g.bbox_global.maxx ∧
        g.bbox_global.maxx ≤ (W : ℤ) ∧
        0 ≤ g.bbox_global.miny ∧ g.bbox_global.miny < g.bbox_global.maxy ∧
        g.bbox_global.maxy ≤ (H : ℤ)) ∧
    (∀ (tile : TileSpec) (tid : ℕ) (ld : LocalDetection),
      (CoordinateMapper.clamp 0 W (ld.bbox_local.maxx + tile.x) -
         CoordinateMapper.clamp 0 W (ld.bbox_local.minx + tile.x) ≤ 0 ∨
       CoordinateMapper.clamp 0 H (ld.bbox_local.maxy + tile.y) -
         CoordinateMapper.clamp 0 H (ld.bbox_local.miny + tile.y) ≤ 0) →
      CoordinateMapper.to_global W H tile tid ld = none) ∧
    (∀ (detector : SlicedInferenceOrchestrator.Detector)
        (cfg : SlicedInferenceOrchestrator.Config)
        (tiles : List TileSpec) (res : SlicedInferenceOrchestrator.RunResult),
      TileGenerator.generate W H cfg.tile_width cfg.tile_height cfg.overlap_ratio =
        .ok tiles →
      SlicedInferenceOrchestrator.run W H detector cfg = .ok res →
      res.stats.dropped_degenerate_count =
        (SlicedInferenceOrchestrator.rawPairs detector cfg.confidence_floor tiles).countP
          (fun p => (CoordinateMapper.to_global W H p.1.2 p.1.1 p.2).isNone) ∧
      ∀ g ∈ SlicedInferenceOrchestrator.globalPool W H detector cfg.confidence_floor tiles,
        0 ≤ g.bbox_global.minx ∧ g.bbox_global.minx < g.bbox_global.maxx ∧
        g.bbox_global.maxx ≤ (W : ℤ) ∧
        0 ≤ g.bbox_global.miny ∧ g.bbox_global.miny < g.bbox_global.maxy ∧
        g.bbox_global.maxy ≤ (H : ℤ)) := by
  have hbounds : ∀ (tile : TileSpec) (tid : ℕ) (ld : LocalDetection) (g : GlobalDetection),
      CoordinateMapper.to_global W H tile tid ld = some g →
        0 ≤ g.bbox_global.minx ∧ g.bbox_global.minx < g.bbox_global.maxx ∧
        g.bbox_global.maxx ≤ (W : ℤ) ∧
        0 ≤ g.bbox_global.miny ∧ g.bbox_global.miny < g.bbox_global.maxy ∧
        g.bbox_global.maxy ≤ (H : ℤ) := by
    intro tile tid ld g hg
    unfold CoordinateMapper.to_global at hg
    simp only at hg
    split at hg
    · exact absurd hg (by simp)
    · rename_i hcond
      push_neg at hcond
      have := (Option.some.injEq _ _).mp hg
      subst this
      unfold CoordinateMapper.clamp at hcond ⊢
      simp only
      refine ⟨?_, ?_, ?_, ?_, ?_, ?_⟩ <;> omega
  refine ⟨hbounds, ?_, ?_⟩
  · intro tile tid ld hdeg
    unfold CoordinateMapper.to_global
    simp only
    rw [if_pos hdeg]
  · intro detector cfg tiles res hgen hrun
    by_cases hguard : (0 < tiles.length ∧
        (tiles.filter (SlicedInferenceOrchestrator.tileFailed detector
          cfg.confidence_floor)).length = tiles.length)
    · have h := (SlicedInferenceOrchestrator.run_ok_iff W H detector cfg tiles hgen).2 hguard
      rw [h] at hrun
      exact absurd hrun (by simp)
    · have h := (SlicedInferenceOrchestrator.run_ok_iff W H detector cfg tiles hgen).1 hguard
      rw [h] at hrun
      have hres := (Except.ok.injEq _ _).mp hrun
      subst hres
      constructor
      · rfl
      · intro g hgmem
        obtain ⟨p, hp, hsome⟩ := List.mem_filterMap.mp hgmem
        exact hbounds p.1.2 p.1.1 p.2 g hsome

/-- Witness for C6: a box overrunning the image edge is clamped to the 10×10
image; a fully out-of-range box is dropped; the concrete 2×2 witness run drops
nothing and counts zero degenerates. -/
theorem clamp_invariant_witness :
    CoordinateMapper.to_global 10 10 ⟨8, 8, 2, 2⟩ 1 ⟨0, 1, ⟨3, 3, 2, 2⟩⟩ = none ∧
    (0 ≤ (8 : ℤ) ∧ (8 : ℤ) < 10 ∧ (10 : ℤ) ≤ ((10 : ℕ) : ℤ) ∧
     0 ≤ (8 : ℤ) ∧ (8 : ℤ) < 10 ∧ (10 : ℤ) ≤ ((10 : ℕ) : ℤ)) ∧
    (SlicedInferenceOrchestrator.expectedResult 2 2 witDetector witConfig
      [⟨0, 0, 1, 1⟩, ⟨1, 0, 1, 1⟩, ⟨0, 1, 1, 1⟩,
       ⟨1, 1, 1, 1⟩]).stats.dropped_degenerate_count = 0 := by
  refine ⟨?_, ?_, ?_⟩
  · exact (clamp_invariant 10 10).2.1 ⟨8, 8, 2, 2⟩ 1 ⟨0, 1, ⟨3, 3, 2, 2⟩⟩ (by decide)
  · exact (clamp_invariant 10 10).1 ⟨8, 8, 2, 2⟩ 0 ⟨0, 1, ⟨0, 0, 5, 5⟩⟩
      ⟨0, 1, ⟨8, 8, 10, 10⟩, 0⟩ (by decide)
  · have hrun := (SlicedInferenceOrchestrator.run_ok_iff 2 2 witDetector witConfig _
      generate_2x2).1 (by decide)
    have hpair := (clamp_invariant 2 2).2.2 witDetector witConfig _ _ generate_2x2 hrun
    exact hpair.1.trans (by decide)
